import Mathlib

/-!
Formal model of the 2D ray-casting engine of `raycast.js`: vectors,
segments, rays, the segment/ray intersection primitive and the bouncing
cast loop, together with theorems about their behaviour.

Real numbers stand in for JavaScript's binary64 floats.  Lean's `x / 0 = 0`
convention differs from JavaScript's infinities and NaN; each definition
where a zero divisor can actually occur carries a note on why the modelled
value coincides with the observable JavaScript behaviour.
-/

noncomputable section

/-- 2D vector with real components, mirroring class `Vector2`. -/
structure Vector2 where
  x : ℝ
  y : ℝ

namespace Vector2

/-- `Vector2.add`. -/
def add (v w : Vector2) : Vector2 := ⟨v.x + w.x, v.y + w.y⟩

/-- `Vector2.sub`. -/
def sub (v w : Vector2) : Vector2 := ⟨v.x - w.x, v.y - w.y⟩

/-- `Vector2.multiplyVect`: the source multiplies `this.x` by `vector.y`
and `this.y` by `vector.x` (crossed components). -/
def multiplyVect (v w : Vector2) : Vector2 := ⟨v.x * w.y, v.y * w.x⟩

/-- `Vector2.multiply`: scalar multiple. -/
def multiply (v : Vector2) (factor : ℝ) : Vector2 := ⟨v.x * factor, v.y * factor⟩

/-- `Vector2.divide`: unconditional componentwise division; the source has
no divisor check, so a zero divisor is not trapped (JavaScript produces
non-finite components there; no error is raised either way). -/
def divide (v : Vector2) (divisor : ℝ) : Vector2 := ⟨v.x / divisor, v.y / divisor⟩

/-- Modelled from the spec: `divide` as sections 4.1 and 7 of the spec
describe it, failing (`none`, standing for the `DivisionByZero` error)
when the divisor is exactly zero.  The source itself has no such check. -/
def divideSpec (v : Vector2) (divisor : ℝ) : Option Vector2 :=
  if divisor = 0 then none else some ⟨v.x / divisor, v.y / divisor⟩

/-- `Vector2.equals`: exact componentwise equality. -/
def equals (v w : Vector2) : Prop := v.x = w.x ∧ v.y = w.y

instance (v w : Vector2) : Decidable (v.equals w) :=
  inferInstanceAs (Decidable (v.x = w.x ∧ v.y = w.y))

/-- `Vector2.normalized`: the zero vector maps to itself, any other vector
is divided by its Euclidean norm. -/
def normalized (v : Vector2) : Vector2 :=
  if v.equals ⟨0, 0⟩ then ⟨0, 0⟩
  else ⟨v.x / Real.sqrt (v.x ^ 2 + v.y ^ 2), v.y / Real.sqrt (v.x ^ 2 + v.y ^ 2)⟩

/-- `Vector2.crossProduct`: the scalar 2D cross product. -/
def crossProduct (v w : Vector2) : ℝ := v.x * w.y - v.y * w.x

/-- `Vector2.distance`: Euclidean distance. -/
def distance (v w : Vector2) : ℝ :=
  Real.sqrt ((v.sub w).x * (v.sub w).x + (v.sub w).y * (v.sub w).y)

end Vector2

/-- Segment obstacle, mirroring class `Segment`; the normals the constructor
stores are pure functions of the endpoints, given below. -/
structure Segment where
  startPos : Vector2
  endPos : Vector2

namespace Segment

/-- The left normal stored by the `Segment` constructor. -/
def normalLeft (s : Segment) : Vector2 :=
  (Vector2.mk (-(s.endPos.sub s.startPos).y) (s.endPos.sub s.startPos).x).normalized

/-- The right normal stored by the `Segment` constructor. -/
def normalRight (s : Segment) : Vector2 :=
  (Vector2.mk (s.endPos.sub s.startPos).y (-(s.endPos.sub s.startPos).x)).normalized

/-- `Segment.returnNormal` always answers the right normal. -/
def returnNormal (s : Segment) : Vector2 := s.normalRight

end Segment

/-- Ray state, mirroring the fields class `Ray` carries. -/
structure Ray where
  startPos : Vector2
  direction : Vector2
  maxDistance : ℝ
  nbBounce : ℕ
  maxBounce : ℕ
  intensity : ℝ
  intensityDropOff : ℝ
  closestIntersectPoint : Vector2
  points : List Vector2
  directions : List Vector2

namespace Ray

/-- Body of the `Ray` constructor with `maxDistance` as a parameter.  The
source fixes `maxDistance = 1000000`; the spec's concrete scenarios vary it,
so the shared body is factored out here. -/
def mkWithMaxDistance (startPos direction : Vector2) (maxDistance : ℝ) : Ray :=
  { startPos := startPos
    direction := direction
    maxDistance := maxDistance
    nbBounce := 0
    maxBounce := 5
    intensity := 1
    intensityDropOff := 1 / 5
    closestIntersectPoint := direction.normalized.multiply maxDistance
    points := [startPos]
    directions := [direction] }

/-- The `Ray` constructor: rejects the zero direction (the source throws),
otherwise builds the state with `maxDistance = 1000000`. -/
def make (startPos direction : Vector2) : Option Ray :=
  if direction.equals ⟨0, 0⟩ then none
  else some (mkWithMaxDistance startPos direction 1000000)

/-- The query origin `q = ray.points[ray.nbBounce]` used by `rayIntersects`. -/
def queryQ (r : Ray) : Vector2 := r.points.getD r.nbBounce ⟨0, 0⟩

/-- The query vector `s` used by `rayIntersects`:
`ray.directions[ray.nbBounce].normalized().multiply(ray.maxDistance).sub(ray.points[ray.nbBounce])`. -/
def queryS (r : Ray) : Vector2 :=
  ((r.directions.getD r.nbBounce ⟨0, 0⟩).normalized.multiply r.maxDistance).sub r.queryQ

/-- Well-formedness of a ray state: the invariants the spec's section 3
ascribes to `Ray`. -/
def wf (r : Ray) : Prop :=
  r.directions.length = r.points.length ∧
  r.points.length = r.nbBounce + 1 ∧
  r.points[0]? = some r.startPos ∧
  r.nbBounce ≤ r.maxBounce

end Ray

/-- Body of `Segment.rayIntersects` in terms of the values `p`, `r`, `q`,
`s` its first lines bind.  In the first branch the source divides by
`r.crossProduct(r)`, which is identically zero: in JavaScript `t1` is then
infinite or NaN, so the `t1` interval test never succeeds, while here
`x / 0 = 0` gives `t1 = t0`, and either way the disjunction reduces to the
`t0` test, so both semantics return the same value.  The trailing `none` is
the source falling off the end of the function, which cannot be reached. -/
def segIntersectCore (p r q s : Vector2) : Option Vector2 :=
  let rXs := r.crossProduct s
  let qMp := q.sub p
  let qMpXr := qMp.crossProduct r
  if rXs = qMpXr then
    let t0 := qMpXr
    let t1 := t0 + s.crossProduct r / r.crossProduct r
    if (0 ≤ t0 ∧ t0 ≤ 1) ∨ (0 ≤ t1 ∧ t1 ≤ 1) then
      if s.crossProduct r < 0 then some (p.add r) else some p
    else none
  else if rXs = 0 ∧ qMpXr ≠ 0 then none
  else if rXs ≠ 0 then
    let t := qMp.crossProduct s / rXs
    let u := qMpXr / rXs
    if ¬(t < 0 ∨ t > 1) ∧ ¬(u < 0 ∨ u > 1) then some (p.add (r.multiply t)) else none
  else none

/-- `Segment.rayIntersects`: bind `p`, `r`, `q`, `s` exactly as the source
does, then run the intersection computation on them. -/
def Segment.rayIntersects (seg : Segment) (ray : Ray) : Option Vector2 :=
  segIntersectCore seg.startPos (seg.endPos.sub seg.startPos) ray.queryQ ray.queryS

/-- JavaScript's `Math.atan2(y, x)`, as the argument of `x + y*i`. -/
def atan2 (y x : ℝ) : ℝ := Complex.arg (Complex.mk x y)

/-- Scene, mirroring class `World`. -/
structure World where
  objects : List Segment

/-- `World.addObject`. -/
def World.addObject (w : World) (s : Segment) : World := ⟨w.objects ++ [s]⟩

/-- Inner `for` loop of `Ray.cast`: scan the obstacles in order, skipping
the index hit on the previous bounce, keeping the strictly closest
intersection found so far (`closest`) and the obstacle that produced it
(`objectHit`, with its index to model JavaScript object identity). -/
def scanObjs (r : Ray) (lastHit : Option ℕ) :
    List Segment → ℕ → Option (ℕ × Segment) → Vector2 → Option (ℕ × Segment) × Vector2
  | [], _, objectHit, closest => (objectHit, closest)
  | seg :: rest, i, objectHit, closest =>
    if lastHit = some i then scanObjs r lastHit rest (i + 1) objectHit closest
    else
      match Segment.rayIntersects seg r with
      | none => scanObjs r lastHit rest (i + 1) objectHit closest
      | some ipt =>
        if r.queryQ.distance closest > r.queryQ.distance ipt then
          scanObjs r lastHit rest (i + 1) (some (i, seg)) ipt
        else scanObjs r lastHit rest (i + 1) objectHit closest

/-- The `while` loop of `Ray.cast`, with the remaining loop iterations as
explicit fuel; `lastHit` is `lastObjectHit`, tracked by position in the
obstacle list (JavaScript compares object identity there). -/
def castLoop (w : World) : ℕ → Ray → Option ℕ → Ray
  | 0, r, _ => r
  | fuel + 1, r, lastHit =>
    if r.nbBounce < r.maxBounce then
      let scanned := scanObjs r lastHit w.objects 0 none r.closestIntersectPoint
      if r.closestIntersectPoint.equals scanned.2 then r
      else
        match scanned.1 with
        | none => r
        | some hit =>
          let dir := (r.directions.getD r.nbBounce ⟨0, 0⟩).normalized
          let b := dir.multiply (-1)
          let c := hit.2.returnNormal
          let normalGlobalAngle := atan2 c.y c.x
          let lineGlobalAngle := atan2 b.y b.x
          let diff := Real.arccos ((b.x * c.x + b.y * c.y) /
            (Real.sqrt (b.x * b.x + b.y * b.y) * Real.sqrt (c.x * c.x + c.y * c.y)))
          let globalReboundAngle :=
            if lineGlobalAngle > normalGlobalAngle then normalGlobalAngle - diff
            else normalGlobalAngle + diff
          let newDir : Vector2 := ⟨Real.cos globalReboundAngle, Real.sin globalReboundAngle⟩
          let newDirections := r.directions ++ [newDir]
          castLoop w fuel
            { r with
              points := r.points ++ [scanned.2]
              directions := newDirections
              nbBounce := r.nbBounce + 1
              closestIntersectPoint :=
                (newDirections.getD (r.nbBounce + 1) ⟨0, 0⟩).normalized.multiply r.maxDistance }
            (some hit.1)
    else r

/-- `Ray.cast`: run the loop.  `maxBounce - nbBounce` iterations always
suffice, because every iteration either stops or increments `nbBounce`. -/
def Ray.cast (r : Ray) (w : World) : Ray := castLoop w (r.maxBounce - r.nbBounce) r none

/-- The running intensity decrements performed by the `for` loop of
`Ray.draw` (`n` iterations of `intensity -= drop`). -/
def drawIntensitySteps : ℕ → ℝ → ℝ → ℝ
  | 0, v, _ => v
  | n + 1, v, d => drawIntensitySteps n (v - d) d

/-- Effect of `Ray.draw` on the ray state, rendering calls aside: the loop
runs once per point after the first and decrements `intensity` each time. -/
def Ray.drawUpdate (r : Ray) : Ray :=
  { r with intensity := drawIntensitySteps (r.points.length - 1) r.intensity r.intensityDropOff }

/-- Bottom wall of the spec's square-room scenario. -/
def wallBottom : Segment := ⟨⟨100, 50⟩, ⟨200, 50⟩⟩

/-- Right wall of the spec's square-room scenario. -/
def wallRight : Segment := ⟨⟨200, 50⟩, ⟨200, 150⟩⟩

/-- Top wall of the spec's square-room scenario. -/
def wallTop : Segment := ⟨⟨200, 150⟩, ⟨100, 150⟩⟩

/-- Left wall of the spec's square-room scenario. -/
def wallLeft : Segment := ⟨⟨100, 150⟩, ⟨100, 50⟩⟩

/-- The square room with corners (100,50), (200,50), (200,150), (100,150). -/
def room : World := ⟨[wallBottom, wallRight, wallTop, wallLeft]⟩

/-- The scenario ray: origin (150,100), direction (1,0), with the given
`maxDistance`. -/
def rayC1 (M : ℝ) : Ray := Ray.mkWithMaxDistance ⟨150, 100⟩ ⟨1, 0⟩ M

/-- A vertical segment strictly above the query segment of `rayShort`;
the two share no point and are not parallel. -/
def segBeside : Segment := ⟨⟨2, 5⟩, ⟨2, 9 / 2⟩⟩

/-- Ray from the origin along (1,0) with `maxDistance = 2`. -/
def rayShort : Ray := Ray.mkWithMaxDistance ⟨0, 0⟩ ⟨1, 0⟩ 2

/-- A vertical segment crossing the query segment of `rayMid`. -/
def segFacing : Segment := ⟨⟨2, -1⟩, ⟨2, 1⟩⟩

/-- Ray from the origin along (1,0) with `maxDistance = 4`. -/
def rayMid : Ray := Ray.mkWithMaxDistance ⟨0, 0⟩ ⟨1, 0⟩ 4

/-! ### Basic vector lemmas -/

theorem Vector2.equals_refl (v : Vector2) : v.equals v := ⟨rfl, rfl⟩

theorem Vector2.equals_iff {v w : Vector2} : v.equals w ↔ v = w := by
  cases v; cases w; simp [Vector2.equals, Vector2.mk.injEq]

theorem Vector2.normalized_unitx : Vector2.normalized ⟨1, 0⟩ = ⟨1, 0⟩ := by
  have h1 : ¬ (Vector2.mk 1 0).equals ⟨0, 0⟩ := by
    simp [Vector2.equals]
  have h2 : (1 : ℝ) ^ 2 + (0 : ℝ) ^ 2 = 1 := by norm_num
  simp [Vector2.normalized, h1, h2, Real.sqrt_one]

/-! ### Claim 6: componentwise multiplication -/

/-- C6 counterexample: `multiplyVect (1,2) (3,4)` is `(4,6)`, not the
componentwise product `(1*3, 2*4) = (3,8)` the claim asserts. -/
theorem claim6_counterexample :
    Vector2.multiplyVect ⟨1, 2⟩ ⟨3, 4⟩ = ⟨4, 6⟩ ∧
    Vector2.multiplyVect ⟨1, 2⟩ ⟨3, 4⟩ ≠ ⟨(1 : ℝ) * 3, (2 : ℝ) * 4⟩ := by
  constructor
  · simp only [Vector2.multiplyVect, Vector2.mk.injEq]
    norm_num
  · simp only [Vector2.multiplyVect, Vector2.mk.injEq, ne_eq, not_and]
    norm_num

/-- C6 amended: `multiplyVect` crosses the components, returning
`(x1*y2, y1*x2)`; its two components differ by exactly the scalar cross
product of the inputs. -/
theorem claim6_amended (v w : Vector2) :
    Vector2.multiplyVect v w = ⟨v.x * w.y, v.y * w.x⟩ ∧
    (Vector2.multiplyVect v w).x - (Vector2.multiplyVect v w).y = v.crossProduct w := by
  constructor
  · rfl
  · simp [Vector2.multiplyVect, Vector2.crossProduct]

/-! ### Claim 5: division -/

/-- C5 counterexample: `divide` has no divisor check.  At divisor `0` it
still returns a vector (components `x/0`, `y/0`; JavaScript produces
non-finite numbers there), while the spec-modelled `divideSpec` fails. -/
theorem claim5_counterexample :
    Vector2.divide ⟨1, 2⟩ 0 = ⟨(1 : ℝ) / 0, (2 : ℝ) / 0⟩ ∧
    Vector2.divideSpec ⟨1, 2⟩ 0 = none := by
  constructor
  · rfl
  · simp [Vector2.divideSpec]

/-- C5 amended: `divide` unconditionally returns `(x/d, y/d)` and never
fails; on every nonzero divisor it agrees with the spec's `divideSpec`. -/
theorem claim5_amended (v : Vector2) (d : ℝ) :
    Vector2.divide v d = ⟨v.x / d, v.y / d⟩ ∧
    (d ≠ 0 → Vector2.divideSpec v d = some (Vector2.divide v d)) := by
  constructor
  · rfl
  · intro hd
    simp [Vector2.divideSpec, Vector2.divide, hd]

/-- C5 witness: the amended claim at the concrete input `(6,4) / 2`. -/
theorem claim5_witness :
    Vector2.divide ⟨6, 4⟩ 2 = ⟨3, 2⟩ ∧
    Vector2.divideSpec ⟨6, 4⟩ 2 = some (Vector2.divide ⟨6, 4⟩ 2) := by
  have h := claim5_amended ⟨6, 4⟩ 2
  constructor
  · rw [h.1]; simp [Vector2.mk.injEq]; norm_num
  · exact h.2 (by norm_num)

/-! ### Ray query helpers -/

theorem Ray.queryQ_mk (o d : Vector2) (M : ℝ) :
    (Ray.mkWithMaxDistance o d M).queryQ = o := by
  simp [Ray.queryQ, Ray.mkWithMaxDistance]

theorem Ray.queryS_mk_unitx (o : Vector2) (M : ℝ) :
    (Ray.mkWithMaxDistance o ⟨1, 0⟩ M).queryS = ⟨M - o.x, -o.y⟩ := by
  have hd : (Ray.mkWithMaxDistance o ⟨1, 0⟩ M).directions.getD
      (Ray.mkWithMaxDistance o ⟨1, 0⟩ M).nbBounce ⟨0, 0⟩ = ⟨1, 0⟩ := rfl
  have hM : (Ray.mkWithMaxDistance o ⟨1, 0⟩ M).maxDistance = M := rfl
  rw [Ray.queryS, hd, hM, Ray.queryQ_mk, Vector2.normalized_unitx]
  simp only [Vector2.multiply, Vector2.sub, Vector2.mk.injEq]
  constructor <;> ring

/-! ### The intersection primitive: general branch -/

theorem segIntersectCore_general (p r q s : Vector2)
    (h1 : r.crossProduct s ≠ (q.sub p).crossProduct r)
    (h2 : r.crossProduct s ≠ 0) :
    segIntersectCore p r q s =
      if ¬((q.sub p).crossProduct s / r.crossProduct s < 0 ∨
            (q.sub p).crossProduct s / r.crossProduct s > 1) ∧
         ¬((q.sub p).crossProduct r / r.crossProduct s < 0 ∨
            (q.sub p).crossProduct r / r.crossProduct s > 1)
      then some (p.add (r.multiply ((q.sub p).crossProduct s / r.crossProduct s)))
      else none := by
  simp only [segIntersectCore]
  rw [if_neg h1, if_neg (fun h => h2 h.1), if_pos h2]

theorem segIntersectCore_none_of_t_gt (p r q s : Vector2)
    (h1 : r.crossProduct s ≠ (q.sub p).crossProduct r)
    (h2 : r.crossProduct s ≠ 0)
    (ht : (q.sub p).crossProduct s / r.crossProduct s > 1) :
    segIntersectCore p r q s = none := by
  rw [segIntersectCore_general p r q s h1 h2, if_neg]
  rintro ⟨hA, _⟩
  exact hA (Or.inr ht)

theorem segIntersectCore_none_of_u_lt (p r q s : Vector2)
    (h1 : r.crossProduct s ≠ (q.sub p).crossProduct r)
    (h2 : r.crossProduct s ≠ 0)
    (hu : (q.sub p).crossProduct r / r.crossProduct s < 0) :
    segIntersectCore p r q s = none := by
  rw [segIntersectCore_general p r q s h1 h2, if_neg]
  rintro ⟨_, hB⟩
  exact hB (Or.inl hu)

theorem segIntersectCore_some (p r q s : Vector2)
    (h1 : r.crossProduct s ≠ (q.sub p).crossProduct r)
    (h2 : r.crossProduct s ≠ 0)
    (ht0 : 0 ≤ (q.sub p).crossProduct s / r.crossProduct s)
    (ht1 : (q.sub p).crossProduct s / r.crossProduct s ≤ 1)
    (hu0 : 0 ≤ (q.sub p).crossProduct r / r.crossProduct s)
    (hu1 : (q.sub p).crossProduct r / r.crossProduct s ≤ 1) :
    segIntersectCore p r q s =
      some (p.add (r.multiply ((q.sub p).crossProduct s / r.crossProduct s))) := by
  rw [segIntersectCore_general p r q s h1 h2, if_pos]
  constructor
  · rintro (h | h) <;> linarith
  · rintro (h | h) <;> linarith

theorem cramer_point (p r q s : Vector2) (h2 : r.crossProduct s ≠ 0) :
    p.add (r.multiply ((q.sub p).crossProduct s / r.crossProduct s)) =
      q.add (s.multiply ((q.sub p).crossProduct r / r.crossProduct s)) := by
  have h2x : r.x * s.y - r.y * s.x ≠ 0 := by
    simpa [Vector2.crossProduct] using h2
  simp only [Vector2.add, Vector2.multiply, Vector2.sub, Vector2.crossProduct,
    Vector2.mk.injEq]
  constructor
  · field_simp
    ring
  · field_simp
    ring

theorem cramer_unique (p r q s : Vector2) (t u : ℝ) (h2 : r.crossProduct s ≠ 0)
    (heq : p.add (r.multiply t) = q.add (s.multiply u)) :
    t = (q.sub p).crossProduct s / r.crossProduct s ∧
    u = (q.sub p).crossProduct r / r.crossProduct s := by
  have h2x : r.x * s.y - r.y * s.x ≠ 0 := by
    simpa [Vector2.crossProduct] using h2
  have hx : (p.add (r.multiply t)).x = (q.add (s.multiply u)).x := by rw [heq]
  have hy : (p.add (r.multiply t)).y = (q.add (s.multiply u)).y := by rw [heq]
  simp only [Vector2.add, Vector2.multiply] at hx hy
  simp only [Vector2.crossProduct, Vector2.sub]
  constructor
  · rw [eq_div_iff h2x]
    linear_combination s.y * hx - s.x * hy
  · rw [eq_div_iff h2x]
    linear_combination r.y * hx - r.x * hy

theorem segIntersectCore_some_iff (p r q s pt : Vector2)
    (h2 : r.crossProduct s ≠ 0)
    (h1 : r.crossProduct s ≠ (q.sub p).crossProduct r) :
    segIntersectCore p r q s = some pt ↔
      ∃ t u : ℝ, 0 ≤ t ∧ t ≤ 1 ∧ 0 ≤ u ∧ u ≤ 1 ∧
        p.add (r.multiply t) = q.add (s.multiply u) ∧
        pt = p.add (r.multiply t) := by
  rw [segIntersectCore_general p r q s h1 h2]
  split_ifs with hcond
  · obtain ⟨hts, hus⟩ := hcond
    push_neg at hts hus
    constructor
    · intro h
      refine ⟨(q.sub p).crossProduct s / r.crossProduct s,
        (q.sub p).crossProduct r / r.crossProduct s,
        hts.1, hts.2, hus.1, hus.2,
        cramer_point p r q s h2, ?_⟩
      exact (Option.some.injEq _ _ ▸ h).symm
    · rintro ⟨t, u, _, _, _, _, heq, hpt⟩
      obtain ⟨htt, _⟩ := cramer_unique p r q s t u h2 heq
      rw [hpt, htt]
  · constructor
    · intro h
      exact absurd h (by simp)
    · rintro ⟨t, u, ht0, ht1, hu0, hu1, heq, hpt⟩
      exfalso
      obtain ⟨htt, huu⟩ := cramer_unique p r q s t u h2 heq
      rw [htt] at ht0 ht1
      rw [huu] at hu0 hu1
      exact hcond ⟨fun h => by rcases h with h | h <;> linarith,
        fun h => by rcases h with h | h <;> linarith⟩

/-! ### Claim 2: the intersection primitive against disjoint non-parallel queries -/

theorem rayShort_queryQ : rayShort.queryQ = ⟨0, 0⟩ := by
  rw [rayShort, Ray.queryQ_mk]

theorem rayShort_queryS : rayShort.queryS = ⟨2, 0⟩ := by
  rw [rayShort, Ray.queryS_mk_unitx]
  simp [Vector2.mk.injEq]

/-- C2 counterexample: `segBeside` and the query segment of `rayShort` are
not parallel and share no point, yet `rayIntersects` answers a point.  The
guard of the source's first branch, `rXs == qMp_Xr`, does not test
collinearity and fires here with both cross products equal to `1`. -/
theorem claim2_counterexample :
    Segment.rayIntersects segBeside rayShort = some ⟨2, 9 / 2⟩ ∧
    (segBeside.endPos.sub segBeside.startPos).crossProduct rayShort.queryS ≠ 0 ∧
    ¬ ∃ t u : ℝ, 0 ≤ t ∧ t ≤ 1 ∧ 0 ≤ u ∧ u ≤ 1 ∧
        segBeside.startPos.add ((segBeside.endPos.sub segBeside.startPos).multiply t) =
          rayShort.queryQ.add (rayShort.queryS.multiply u) := by
  have hr : segBeside.endPos.sub segBeside.startPos = ⟨0, -(1 / 2)⟩ := by
    simp only [segBeside, Vector2.sub, Vector2.mk.injEq]
    norm_num
  refine ⟨?_, ?_, ?_⟩
  · rw [Segment.rayIntersects, rayShort_queryQ, rayShort_queryS, hr,
      show segBeside.startPos = ⟨2, 5⟩ from rfl]
    simp only [segIntersectCore, Vector2.crossProduct, Vector2.sub, Vector2.add]
    norm_num
  · rw [hr, rayShort_queryS]
    simp only [Vector2.crossProduct]
    norm_num
  · rintro ⟨t, u, ht0, ht1, hu0, hu1, heq⟩
    rw [hr, rayShort_queryQ, rayShort_queryS,
      show segBeside.startPos = ⟨2, 5⟩ from rfl] at heq
    simp only [Vector2.add, Vector2.multiply, Vector2.mk.injEq] at heq
    obtain ⟨_, hy⟩ := heq
    nlinarith

/-- C2 amended: restricted to queries where the source's first guard
`rXs == qMp_Xr` does not fire, `rayIntersects` answers a point exactly when
the two infinite lines cross at parameters `t` of the segment and `u` of
the query extent, both within `[0,1]`, and the point is `p + r*t`.
(Unrestricted, the claim is false: see the counterexample.) -/
theorem claim2_amended (seg : Segment) (ray : Ray) (pt : Vector2)
    (h2 : (seg.endPos.sub seg.startPos).crossProduct ray.queryS ≠ 0)
    (h1 : (seg.endPos.sub seg.startPos).crossProduct ray.queryS ≠
      (ray.queryQ.sub seg.startPos).crossProduct (seg.endPos.sub seg.startPos)) :
    Segment.rayIntersects seg ray = some pt ↔
      ∃ t u : ℝ, 0 ≤ t ∧ t ≤ 1 ∧ 0 ≤ u ∧ u ≤ 1 ∧
        seg.startPos.add ((seg.endPos.sub seg.startPos).multiply t) =
          ray.queryQ.add (ray.queryS.multiply u) ∧
        pt = seg.startPos.add ((seg.endPos.sub seg.startPos).multiply t) :=
  segIntersectCore_some_iff seg.startPos (seg.endPos.sub seg.startPos)
    ray.queryQ ray.queryS pt h2 h1

theorem rayMid_queryQ : rayMid.queryQ = ⟨0, 0⟩ := by
  rw [rayMid, Ray.queryQ_mk]

theorem rayMid_queryS : rayMid.queryS = ⟨4, 0⟩ := by
  rw [rayMid, Ray.queryS_mk_unitx]
  simp [Vector2.mk.injEq]

/-- C2 witness: the amended claim applied to the crossing pair `segFacing`
and `rayMid`, whose lines cross at `t = u = 1/2`. -/
theorem claim2_witness : Segment.rayIntersects segFacing rayMid = some ⟨2, 0⟩ := by
  have hr : segFacing.endPos.sub segFacing.startPos = ⟨0, 2⟩ := by
    simp only [segFacing, Vector2.sub, Vector2.mk.injEq]
    norm_num
  have h2 : (segFacing.endPos.sub segFacing.startPos).crossProduct rayMid.queryS ≠ 0 := by
    rw [hr, rayMid_queryS]
    simp only [Vector2.crossProduct]
    norm_num
  have h1 : (segFacing.endPos.sub segFacing.startPos).crossProduct rayMid.queryS ≠
      (rayMid.queryQ.sub segFacing.startPos).crossProduct
        (segFacing.endPos.sub segFacing.startPos) := by
    rw [hr, rayMid_queryQ, rayMid_queryS, show segFacing.startPos = ⟨2, -1⟩ from rfl]
    simp only [Vector2.crossProduct, Vector2.sub]
    norm_num
  refine (claim2_amended segFacing rayMid ⟨2, 0⟩ h2 h1).mpr
    ⟨1 / 2, 1 / 2, by norm_num, by norm_num, by norm_num, by norm_num, ?_, ?_⟩
  · rw [hr, rayMid_queryQ, rayMid_queryS, show segFacing.startPos = ⟨2, -1⟩ from rfl]
    simp only [Vector2.add, Vector2.multiply, Vector2.mk.injEq]
    norm_num
  · rw [hr, show segFacing.startPos = ⟨2, -1⟩ from rfl]
    simp only [Vector2.add, Vector2.multiply, Vector2.mk.injEq]
    norm_num

/-! ### The square-room scenario: per-wall intersection results -/

theorem rayC1_queryQ (M : ℝ) : (rayC1 M).queryQ = ⟨150, 100⟩ := by
  rw [rayC1, Ray.queryQ_mk]

theorem rayC1_queryS (M : ℝ) : (rayC1 M).queryS = ⟨M - 150, -100⟩ := by
  rw [rayC1, Ray.queryS_mk_unitx]

theorem hit_wallBottom (M : ℝ) (hM : 2000 ≤ M) :
    Segment.rayIntersects wallBottom (rayC1 M) = none := by
  have hr : wallBottom.endPos.sub wallBottom.startPos = ⟨100, 0⟩ := by
    simp only [wallBottom, Vector2.sub, Vector2.mk.injEq]
    norm_num
  rw [Segment.rayIntersects, rayC1_queryQ, rayC1_queryS, hr,
    show wallBottom.startPos = ⟨100, 50⟩ from rfl]
  apply segIntersectCore_none_of_t_gt
  · simp only [Vector2.crossProduct, Vector2.sub]
    intro h
    linarith
  · simp only [Vector2.crossProduct]
    intro h
    linarith
  · simp only [Vector2.crossProduct, Vector2.sub]
    rw [gt_iff_lt, lt_div_iff_of_neg (by norm_num : (100 : ℝ) * -100 - 0 * (M - 150) < 0)]
    linarith

theorem hit_wallTop (M : ℝ) (hM : 2000 ≤ M) :
    Segment.rayIntersects wallTop (rayC1 M) = none := by
  have hr : wallTop.endPos.sub wallTop.startPos = ⟨-100, 0⟩ := by
    simp only [wallTop, Vector2.sub, Vector2.mk.injEq]
    norm_num
  rw [Segment.rayIntersects, rayC1_queryQ, rayC1_queryS, hr,
    show wallTop.startPos = ⟨200, 150⟩ from rfl]
  apply segIntersectCore_none_of_t_gt
  · simp only [Vector2.crossProduct, Vector2.sub]
    intro h
    linarith
  · simp only [Vector2.crossProduct]
    intro h
    linarith
  · simp only [Vector2.crossProduct, Vector2.sub]
    rw [gt_iff_lt, lt_div_iff₀ (by norm_num : (0 : ℝ) < -100 * -100 - 0 * (M - 150))]
    linarith

theorem hit_wallLeft (M : ℝ) (hM : 2000 ≤ M) :
    Segment.rayIntersects wallLeft (rayC1 M) = none := by
  have hr : wallLeft.endPos.sub wallLeft.startPos = ⟨0, -100⟩ := by
    simp only [wallLeft, Vector2.sub, Vector2.mk.injEq]
    norm_num
  rw [Segment.rayIntersects, rayC1_queryQ, rayC1_queryS, hr,
    show wallLeft.startPos = ⟨100, 150⟩ from rfl]
  apply segIntersectCore_none_of_u_lt
  · simp only [Vector2.crossProduct, Vector2.sub]
    intro h
    linarith
  · simp only [Vector2.crossProduct]
    intro h
    linarith
  · simp only [Vector2.crossProduct, Vector2.sub]
    apply div_neg_of_neg_of_pos
    · linarith
    · linarith

theorem hit_wallRight (M : ℝ) (hM : 2000 ≤ M) :
    Segment.rayIntersects wallRight (rayC1 M) =
      some ⟨200, 50 + 50 * (M - 250) / (M - 150)⟩ := by
  have hr : wallRight.endPos.sub wallRight.startPos = ⟨0, 100⟩ := by
    simp only [wallRight, Vector2.sub, Vector2.mk.injEq]
    norm_num
  rw [Segment.rayIntersects, rayC1_queryQ, rayC1_queryS, hr,
    show wallRight.startPos = ⟨200, 50⟩ from rfl]
  have hden : (0 : ℝ) * -100 - 100 * (M - 150) < 0 := by linarith
  rw [segIntersectCore_some]
  · simp only [Vector2.add, Vector2.multiply, Vector2.sub, Vector2.crossProduct,
      Option.some.injEq, Vector2.mk.injEq]
    constructor
    · norm_num
    · have hne : (0 : ℝ) * -100 - 100 * (M - 150) ≠ 0 := ne_of_lt hden
      have hne2 : M - 150 ≠ 0 := by intro h; linarith
      field_simp
      ring
  · simp only [Vector2.crossProduct, Vector2.sub]
    intro h
    linarith
  · simp only [Vector2.crossProduct]
    intro h
    linarith
  · simp only [Vector2.crossProduct, Vector2.sub]
    rw [le_div_iff_of_neg hden]
    linarith
  · simp only [Vector2.crossProduct, Vector2.sub]
    rw [div_le_iff_of_neg hden]
    linarith
  · simp only [Vector2.crossProduct, Vector2.sub]
    rw [le_div_iff_of_neg hden]
    linarith
  · simp only [Vector2.crossProduct, Vector2.sub]
    rw [div_le_iff_of_neg hden]
    linarith

/-! ### Claim 4: the query vector entering the cross products -/

theorem Vector2.ext_xy {v w : Vector2} (hx : v.x = w.x) (hy : v.y = w.y) : v = w := by
  cases v
  cases w
  simp only [Vector2.mk.injEq]
  exact ⟨hx, hy⟩

theorem Vector2.add_sub_cancel (v w : Vector2) : w.add (v.sub w) = v := by
  cases v
  cases w
  simp only [Vector2.add, Vector2.sub, Vector2.mk.injEq]
  constructor <;> ring

theorem specS_wallRight :
    segIntersectCore wallRight.startPos (wallRight.endPos.sub wallRight.startPos)
      ⟨150, 100⟩ ⟨2000, 0⟩ = some ⟨200, 100⟩ := by
  have hr : wallRight.endPos.sub wallRight.startPos = ⟨0, 100⟩ := by
    simp only [wallRight, Vector2.sub, Vector2.mk.injEq]
    norm_num
  rw [hr, show wallRight.startPos = ⟨200, 50⟩ from rfl]
  simp only [segIntersectCore, Vector2.crossProduct, Vector2.sub, Vector2.add,
    Vector2.multiply]
  norm_num

/-- C4 counterexample: for the scenario ray from (150,100) along (1,0) with
`maxDistance = 2000`, the `s` computed by the source is `(1850,-100)` -- the
normalized direction scaled by `maxDistance` *minus the bounce origin* --
and not `(2000,0)` as the claim asserts; feeding the claim's `s` to the same
computation changes the answer of the primitive. -/
theorem claim4_counterexample :
    (rayC1 2000).queryS = ⟨1850, -100⟩ ∧
    ((rayC1 2000).directions.getD (rayC1 2000).nbBounce ⟨0, 0⟩).normalized.multiply
        (rayC1 2000).maxDistance = ⟨2000, 0⟩ ∧
    (rayC1 2000).queryS ≠
      ((rayC1 2000).directions.getD (rayC1 2000).nbBounce ⟨0, 0⟩).normalized.multiply
        (rayC1 2000).maxDistance ∧
    Segment.rayIntersects wallRight (rayC1 2000) ≠
      segIntersectCore wallRight.startPos (wallRight.endPos.sub wallRight.startPos)
        (rayC1 2000).queryQ ⟨2000, 0⟩ := by
  have hqs : (rayC1 2000).queryS = ⟨1850, -100⟩ := by
    rw [rayC1_queryS]
    simp only [Vector2.mk.injEq]
    norm_num
  have hd : (rayC1 2000).directions.getD (rayC1 2000).nbBounce ⟨0, 0⟩ = ⟨1, 0⟩ := rfl
  have hspec : ((rayC1 2000).directions.getD (rayC1 2000).nbBounce ⟨0, 0⟩).normalized.multiply
      (rayC1 2000).maxDistance = ⟨2000, 0⟩ := by
    rw [hd, Vector2.normalized_unitx, show (rayC1 2000).maxDistance = 2000 from rfl]
    simp only [Vector2.multiply, Vector2.mk.injEq]
    norm_num
  refine ⟨hqs, hspec, ?_, ?_⟩
  · rw [hqs, hspec]
    simp only [ne_eq, Vector2.mk.injEq, not_and]
    intro h
    norm_num at h
  · rw [hit_wallRight 2000 (by norm_num), rayC1_queryQ, specS_wallRight]
    simp only [ne_eq, Option.some.injEq, Vector2.mk.injEq, not_and]
    intro _
    norm_num

/-- C4 amended: the `s` entering all cross products of `rayIntersects` is
`normalized(direction)*maxDistance - q`, the claim's vector shifted back by
the bounce origin; equivalently, the far endpoint of the query segment is
the absolute point `normalized(direction)*maxDistance`. -/
theorem claim4_amended (seg : Segment) (ray : Ray) :
    Segment.rayIntersects seg ray =
      segIntersectCore seg.startPos (seg.endPos.sub seg.startPos) ray.queryQ ray.queryS ∧
    ray.queryQ.add ray.queryS =
      (ray.directions.getD ray.nbBounce ⟨0, 0⟩).normalized.multiply ray.maxDistance := by
  constructor
  · rfl
  · rw [Ray.queryS, Vector2.add_sub_cancel]

/-! ### Cast loop: structural lemmas -/

theorem castLoop_frame (w : World) : ∀ (fuel : ℕ) (r : Ray) (lh : Option ℕ),
    (castLoop w fuel r lh).intensity = r.intensity ∧
    (castLoop w fuel r lh).intensityDropOff = r.intensityDropOff ∧
    (castLoop w fuel r lh).maxBounce = r.maxBounce ∧
    (castLoop w fuel r lh).maxDistance = r.maxDistance ∧
    (castLoop w fuel r lh).startPos = r.startPos := by
  intro fuel
  induction fuel with
  | zero =>
    intro r lh
    exact ⟨rfl, rfl, rfl, rfl, rfl⟩
  | succ n ih =>
    intro r lh
    simp only [castLoop]
    split
    · split
      · exact ⟨rfl, rfl, rfl, rfl, rfl⟩
      · split
        · exact ⟨rfl, rfl, rfl, rfl, rfl⟩
        · exact ih _ _
    · exact ⟨rfl, rfl, rfl, rfl, rfl⟩

theorem castLoop_points_extend (w : World) : ∀ (fuel : ℕ) (r : Ray) (lh : Option ℕ),
    ∃ l, (castLoop w fuel r lh).points = r.points ++ l := by
  intro fuel
  induction fuel with
  | zero =>
    intro r lh
    exact ⟨[], (List.append_nil _).symm⟩
  | succ n ih =>
    intro r lh
    simp only [castLoop]
    split
    · split
      · exact ⟨[], (List.append_nil _).symm⟩
      · split
        · exact ⟨[], (List.append_nil _).symm⟩
        · obtain ⟨l, hl⟩ := ih _ _
          exact ⟨_ ++ l, by rw [hl]; exact List.append_assoc _ _ _⟩
    · exact ⟨[], (List.append_nil _).symm⟩

theorem castLoop_dirs_extend (w : World) : ∀ (fuel : ℕ) (r : Ray) (lh : Option ℕ),
    ∃ l, (castLoop w fuel r lh).directions = r.directions ++ l := by
  intro fuel
  induction fuel with
  | zero =>
    intro r lh
    exact ⟨[], (List.append_nil _).symm⟩
  | succ n ih =>
    intro r lh
    simp only [castLoop]
    split
    · split
      · exact ⟨[], (List.append_nil _).symm⟩
      · split
        · exact ⟨[], (List.append_nil _).symm⟩
        · obtain ⟨l, hl⟩ := ih _ _
          exact ⟨_ ++ l, by rw [hl]; exact List.append_assoc _ _ _⟩
    · exact ⟨[], (List.append_nil _).symm⟩

theorem castLoop_nb_mono (w : World) : ∀ (fuel : ℕ) (r : Ray) (lh : Option ℕ),
    r.nbBounce ≤ (castLoop w fuel r lh).nbBounce := by
  intro fuel
  induction fuel with
  | zero =>
    intro r lh
    exact le_refl _
  | succ n ih =>
    intro r lh
    simp only [castLoop]
    split
    · split
      · exact le_refl _
      · split
        · exact le_refl _
        · refine le_trans ?_ (ih _ _)
          exact Nat.le_succ r.nbBounce
    · exact le_refl _

theorem castLoop_nil : ∀ (fuel : ℕ) (r : Ray) (lh : Option ℕ),
    castLoop ⟨[]⟩ fuel r lh = r := by
  intro fuel
  cases fuel with
  | zero =>
    intro r lh
    rfl
  | succ n =>
    intro r lh
    simp only [castLoop, scanObjs]
    split
    · split
      · rfl
      · next hcond => exact absurd (Vector2.equals_refl _) hcond
    · rfl

theorem castLoop_wf (w : World) : ∀ (fuel : ℕ) (r : Ray) (lh : Option ℕ),
    r.wf → (castLoop w fuel r lh).wf := by
  intro fuel
  induction fuel with
  | zero =>
    intro r lh hwf
    exact hwf
  | succ n ih =>
    intro r lh hwf
    simp only [castLoop]
    split
    · split
      · exact hwf
      · split
        · exact hwf
        · next hlt _ _ =>
          apply ih
          obtain ⟨hdl, hpl, hp0, hnb⟩ := hwf
          refine ⟨?_, ?_, ?_, ?_⟩
          · show (r.directions ++ _).length = (r.points ++ _).length
            simp only [List.length_append, List.length_singleton]
            omega
          · show (r.points ++ _).length = r.nbBounce + 1 + 1
            simp only [List.length_append, List.length_singleton]
            omega
          · show (r.points ++ _)[0]? = some r.startPos
            rw [List.getElem?_append_left (by omega)]
            exact hp0
          · show r.nbBounce + 1 ≤ r.maxBounce
            omega
    · exact hwf

theorem castLoop_fuel_stable (w : World) : ∀ (f : ℕ) (r : Ray) (lh : Option ℕ),
    r.maxBounce - r.nbBounce ≤ f →
    castLoop w f r lh = castLoop w (r.maxBounce - r.nbBounce) r lh := by
  intro f
  induction f with
  | zero =>
    intro r lh hf
    rw [Nat.le_zero.mp hf]
  | succ n ih =>
    intro r lh hf
    rcases h : r.maxBounce - r.nbBounce with _ | k
    · have hle : ¬ r.nbBounce < r.maxBounce := by omega
      simp only [castLoop, if_neg hle]
    · have hlt : r.nbBounce < r.maxBounce := by omega
      have key : ∀ (R : Ray) (s : Option ℕ), R.maxBounce - R.nbBounce = k →
          castLoop w n R s = castLoop w k R s := by
        intro R s hk
        rw [ih R s (by omega), hk]
      simp only [castLoop]
      rw [if_pos hlt, if_pos hlt]
      split
      · rfl
      · split
        · rfl
        · exact key _ _ (by show r.maxBounce - (r.nbBounce + 1) = k; omega)

theorem dirs_unit_append (l : List Vector2) (a : ℝ)
    (h : ∀ i : ℕ, 1 ≤ i → i < l.length →
      (l.getD i ⟨0, 0⟩).x ^ 2 + (l.getD i ⟨0, 0⟩).y ^ 2 = 1) :
    ∀ i : ℕ, 1 ≤ i → i < (l ++ [(⟨Real.cos a, Real.sin a⟩ : Vector2)]).length →
      ((l ++ [(⟨Real.cos a, Real.sin a⟩ : Vector2)]).getD i ⟨0, 0⟩).x ^ 2 +
        ((l ++ [(⟨Real.cos a, Real.sin a⟩ : Vector2)]).getD i ⟨0, 0⟩).y ^ 2 = 1 := by
  intro i hi1 hilen
  rcases lt_or_ge i l.length with hlt | hge
  · rw [List.getD_append _ _ _ _ hlt]
    exact h i hi1 hlt
  · have hieq : i = l.length := by
      simp only [List.length_append, List.length_singleton] at hilen
      omega
    subst hieq
    rw [List.getD_append_right _ _ _ _ hge, Nat.sub_self]
    simp only [List.getD_cons_zero]
    exact Real.cos_sq_add_sin_sq a

theorem castLoop_dirs_unit (w : World) : ∀ (fuel : ℕ) (r : Ray) (lh : Option ℕ),
    (∀ i : ℕ, 1 ≤ i → i < r.directions.length →
      (r.directions.getD i ⟨0, 0⟩).x ^ 2 + (r.directions.getD i ⟨0, 0⟩).y ^ 2 = 1) →
    ∀ i : ℕ, 1 ≤ i → i < (castLoop w fuel r lh).directions.length →
      ((castLoop w fuel r lh).directions.getD i ⟨0, 0⟩).x ^ 2 +
        ((castLoop w fuel r lh).directions.getD i ⟨0, 0⟩).y ^ 2 = 1 := by
  intro fuel
  induction fuel with
  | zero =>
    intro r lh h
    exact h
  | succ n ih =>
    intro r lh h
    simp only [castLoop]
    split
    · split
      · exact h
      · split
        · exact h
        · exact ih _ _ (dirs_unit_append r.directions _ h)
    · exact h

theorem drawIntensitySteps_eq : ∀ (n : ℕ) (v d : ℝ),
    drawIntensitySteps n v d = v - n * d := by
  intro n
  induction n with
  | zero =>
    intro v d
    simp [drawIntensitySteps]
  | succ k ih =>
    intro v d
    simp only [drawIntensitySteps]
    rw [ih]
    push_cast
    ring

/-! ### The square-room scenario: the first loop iteration -/

theorem dist_cmp (M : ℝ) (hM : 2000 ≤ M) :
    (Vector2.mk 150 100).distance ⟨M, 0⟩ >
      (Vector2.mk 150 100).distance ⟨200, 50 + 50 * (M - 250) / (M - 150)⟩ := by
  have hden : (0 : ℝ) < M - 150 := by linarith
  have he : 100 - (50 + 50 * (M - 250) / (M - 150)) = 5000 / (M - 150) := by
    field_simp
    ring
  have heb : 100 - (50 + 50 * (M - 250) / (M - 150)) ≤ 3 := by
    rw [he, div_le_iff₀ hden]
    linarith
  have heb0 : 0 ≤ 100 - (50 + 50 * (M - 250) / (M - 150)) := by
    rw [he]
    exact div_nonneg (by norm_num) (le_of_lt hden)
  simp only [Vector2.distance, Vector2.sub]
  rw [gt_iff_lt]
  apply Real.sqrt_lt_sqrt
  · nlinarith [heb, heb0]
  · have h1 : (100 - (50 + 50 * (M - 250) / (M - 150))) *
        (100 - (50 + 50 * (M - 250) / (M - 150))) ≤ 9 := by
      nlinarith [heb, heb0]
    have h2 : (1850 : ℝ) * 1850 ≤ (150 - M) * (150 - M) := by nlinarith
    nlinarith [h1, h2]

theorem scan_room (M : ℝ) (hM : 2000 ≤ M) :
    scanObjs (rayC1 M) none room.objects 0 none ⟨M, 0⟩ =
      (some (1, wallRight), ⟨200, 50 + 50 * (M - 250) / (M - 150)⟩) := by
  have h0 := hit_wallBottom M hM
  have h1 := hit_wallRight M hM
  have h2 := hit_wallTop M hM
  have h3 := hit_wallLeft M hM
  have hd : (rayC1 M).queryQ.distance ⟨M, 0⟩ >
      (rayC1 M).queryQ.distance ⟨200, 50 + 50 * (M - 250) / (M - 150)⟩ := by
    rw [rayC1_queryQ]
    exact dist_cmp M hM
  show scanObjs (rayC1 M) none [wallBottom, wallRight, wallTop, wallLeft] 0 none ⟨M, 0⟩ = _
  simp [scanObjs, h0, h1, h2, h3, hd]

theorem rayC1_closest (M : ℝ) : (rayC1 M).closestIntersectPoint = ⟨M, 0⟩ := by
  show (Vector2.normalized ⟨1, 0⟩).multiply M = ⟨M, 0⟩
  rw [Vector2.normalized_unitx]
  simp only [Vector2.multiply, Vector2.mk.injEq]
  constructor <;> ring

theorem castC1_shape (M : ℝ) (hM : 2000 ≤ M) :
    ∃ R : Ray, (rayC1 M).cast room = castLoop room 4 R (some 1) ∧
      R.points = [⟨150, 100⟩, ⟨200, 50 + 50 * (M - 250) / (M - 150)⟩] ∧
      R.nbBounce = 1 := by
  have hne : ¬ (Vector2.mk M 0).equals ⟨200, 50 + 50 * (M - 250) / (M - 150)⟩ := by
    intro hcontra
    have hx := hcontra.1
    simp only at hx
    linarith
  rw [Ray.cast]
  rw [show (rayC1 M).maxBounce - (rayC1 M).nbBounce = 4 + 1 from rfl]
  rw [castLoop]
  rw [if_pos (show (rayC1 M).nbBounce < (rayC1 M).maxBounce from by norm_num [rayC1, Ray.mkWithMaxDistance])]
  simp only [rayC1_closest, scan_room M hM]
  rw [if_neg hne]
  exact ⟨_, rfl, rfl, rfl⟩

theorem castC1_points (M : ℝ) (hM : 2000 ≤ M) :
    ((rayC1 M).cast room).points[1]? =
      some ⟨200, 50 + 50 * (M - 250) / (M - 150)⟩ := by
  obtain ⟨R, hc, hp, hnb⟩ := castC1_shape M hM
  obtain ⟨l, hl⟩ := castLoop_points_extend room 4 R (some 1)
  rw [hc, hl, hp]
  rw [List.getElem?_append_left (by norm_num)]
  rfl

/-! ### Claim 1: the square-room concrete scenario -/

/-- C1 counterexample: with `maxDistance = 2000` (which is at least 2000)
the first-bounce point reported by `cast` is not `(200,100)` -- it is
`(200, 3600/37)`, because the query vector `s` is offset by the ray
origin (see the claim 4 theorems). -/
theorem claim1_counterexample :
    (2000 : ℝ) ≤ (rayC1 2000).maxDistance ∧
    ((rayC1 2000).cast room).points[1]? ≠ some ⟨200, 100⟩ := by
  constructor
  · exact le_refl 2000
  · rw [castC1_points 2000 (by norm_num)]
    simp only [ne_eq, Option.some.injEq, Vector2.mk.injEq, not_and]
    intro _
    norm_num

/-- C1 amended: for the scenario ray with origin (150,100) and direction
(1,0) against the square room and any `maxDistance` `M ≥ 2000`, the nearest
intersection reported for the first bounce lies on the right wall but at
`(200, 50 + 50*(M-250)/(M-150))`, slightly below `(200,100)`, because the
code's query segment runs from the origin to the absolute point `(M, 0)`. -/
theorem claim1_amended (M : ℝ) (hM : 2000 ≤ M) :
    ((rayC1 M).cast room).points[1]? =
      some ⟨200, 50 + 50 * (M - 250) / (M - 150)⟩ :=
  castC1_points M hM

/-- C1 witness: the amended claim at `maxDistance = 2000`. -/
theorem claim1_witness :
    ((rayC1 2000).cast room).points[1]? =
      some ⟨200, 50 + 50 * (2000 - 250) / (2000 - 150)⟩ :=
  claim1_amended 2000 (by norm_num)

/-! ### Claims 7, 8, 9, 10 and 3: the cast loop -/

theorem mkWithMaxDistance_wf (o d : Vector2) (M : ℝ) :
    (Ray.mkWithMaxDistance o d M).wf :=
  ⟨rfl, rfl, rfl, Nat.zero_le _⟩

theorem make_eq_some (o d : Vector2) (r : Ray) (h : Ray.make o d = some r) :
    r = Ray.mkWithMaxDistance o d 1000000 := by
  rw [Ray.make] at h
  split at h
  · exact Option.noConfusion h
  · injection h with h2
    exact h2.symm

theorem make_rayC1 : Ray.make ⟨150, 100⟩ ⟨1, 0⟩ = some (rayC1 1000000) := by
  rw [Ray.make, if_neg]
  · rfl
  · intro hcontra
    exact one_ne_zero hcontra.1

/-- C7: a constructed ray satisfies the ray invariants
(`directions.length = points.length = bounceCount + 1`, `points[0]` is the
construction origin, `bounceCount ≤ maxBounces`), and every iteration of the
cast loop preserves them. -/
theorem claim7_theorem :
    (∀ (o d : Vector2) (r : Ray), Ray.make o d = some r →
      r.wf ∧ r.startPos = o ∧ ∀ w : World, (r.cast w).wf) ∧
    (∀ (w : World) (fuel : ℕ) (lh : Option ℕ) (r : Ray), r.wf →
      (castLoop w fuel r lh).wf) := by
  constructor
  · intro o d r h
    have hr := make_eq_some o d r h
    subst hr
    exact ⟨mkWithMaxDistance_wf o d 1000000, rfl,
      fun w => castLoop_wf w _ _ none (mkWithMaxDistance_wf o d 1000000)⟩
  · intro w fuel lh r hwf
    exact castLoop_wf w fuel r lh hwf

/-- C7 witness: the invariants hold for the concrete constructed scenario
ray, before and after running loop iterations against the square room. -/
theorem claim7_witness :
    (rayC1 1000000).wf ∧ (castLoop room 3 (rayC1 1000000) none).wf := by
  have h := claim7_theorem
  have h1 := (h.1 ⟨150, 100⟩ ⟨1, 0⟩ _ make_rayC1).1
  exact ⟨h1, h.2 room 3 none _ h1⟩

/-- C8: the cast loop is insensitive to extra fuel beyond
`maxBounce - nbBounce`: every iteration either stops the loop or strictly
increments `nbBounce`, which the loop guard bounds by `maxBounce`, so
`maxBounce - nbBounce` iterations always suffice and `cast` terminates. -/
theorem claim8_theorem (w : World) (lh : Option ℕ) (r : Ray) (fuel : ℕ)
    (h : r.maxBounce - r.nbBounce ≤ fuel) :
    castLoop w fuel r lh = castLoop w (r.maxBounce - r.nbBounce) r lh :=
  castLoop_fuel_stable w fuel r lh h

/-- C8 witness: for the concrete scenario ray, 7 units of fuel and the 5
that `maxBounce - nbBounce` grants give the same final state. -/
theorem claim8_witness :
    castLoop room 7 (rayC1 1000000) none = castLoop room 5 (rayC1 1000000) none := by
  have h := claim8_theorem room none (rayC1 1000000) 7
    (show (5 : ℕ) - 0 ≤ 7 by norm_num)
  rw [h]
  rfl

/-- C9: casting a constructed ray against an empty world leaves the ray
unchanged: `points` is still `[origin]`, `directions` still holds only the
initial direction, and `bounceCount` is still 0. -/
theorem claim9_theorem (o d : Vector2) (r : Ray) (h : Ray.make o d = some r) :
    r.cast ⟨[]⟩ = r ∧ r.points = [o] ∧ r.directions = [d] ∧ r.nbBounce = 0 := by
  have hr := make_eq_some o d r h
  subst hr
  exact ⟨castLoop_nil _ _ _, rfl, rfl, rfl⟩

/-- C9 witness: the empty-world cast at the concrete scenario ray. -/
theorem claim9_witness :
    (rayC1 1000000).cast ⟨[]⟩ = rayC1 1000000 ∧
    (rayC1 1000000).points = [⟨150, 100⟩] ∧
    (rayC1 1000000).directions = [⟨1, 0⟩] ∧
    (rayC1 1000000).nbBounce = 0 :=
  claim9_theorem ⟨150, 100⟩ ⟨1, 0⟩ (rayC1 1000000) make_rayC1

/-- C10: every direction a bounce of `cast` appends (index 1 and beyond) is
a unit vector, being built as `(cos a, sin a)`; the initial direction at
index 0 need not be one (witnessed by a constructed ray of direction
`(2,0)`). -/
theorem claim10_theorem :
    (∀ (o d : Vector2) (r : Ray) (w : World), Ray.make o d = some r →
      ∀ i : ℕ, 1 ≤ i → i < (r.cast w).directions.length →
        ((r.cast w).directions.getD i ⟨0, 0⟩).x ^ 2 +
          ((r.cast w).directions.getD i ⟨0, 0⟩).y ^ 2 = 1) ∧
    (∃ (o d : Vector2) (r : Ray), Ray.make o d = some r ∧
      (r.directions.getD 0 ⟨0, 0⟩).x ^ 2 + (r.directions.getD 0 ⟨0, 0⟩).y ^ 2 ≠ 1) := by
  constructor
  · intro o d r w h i hi1 hlen
    have hr := make_eq_some o d r h
    subst hr
    refine castLoop_dirs_unit w _ _ none ?_ i hi1 hlen
    intro j hj1 hjlen
    exact absurd (show j < 1 from hjlen) (by omega)
  · refine ⟨⟨0, 0⟩, ⟨2, 0⟩, Ray.mkWithMaxDistance ⟨0, 0⟩ ⟨2, 0⟩ 1000000, ?_, ?_⟩
    · rw [Ray.make, if_neg]
      intro hcontra
      have h2 := hcontra.1
      norm_num at h2
    · show (2 : ℝ) ^ 2 + 0 ^ 2 ≠ 1
      norm_num

/-- C10 witness: after casting the scenario ray in the square room at least
one bounce direction exists, and the one at index 1 is a unit vector. -/
theorem claim10_witness :
    1 < ((rayC1 1000000).cast room).directions.length ∧
    (((rayC1 1000000).cast room).directions.getD 1 ⟨0, 0⟩).x ^ 2 +
      (((rayC1 1000000).cast room).directions.getD 1 ⟨0, 0⟩).y ^ 2 = 1 := by
  have hwf : ((rayC1 1000000).cast room).wf :=
    castLoop_wf room _ _ none (mkWithMaxDistance_wf _ _ _)
  have hp := castC1_points 1000000 (by norm_num)
  have h1 : 1 < ((rayC1 1000000).cast room).points.length :=
    (List.getElem?_eq_some.mp hp).1
  have hlen : 1 < ((rayC1 1000000).cast room).directions.length := by
    rw [hwf.1]
    exact h1
  exact ⟨hlen,
    claim10_theorem.1 ⟨150, 100⟩ ⟨1, 0⟩ _ room make_rayC1 1 le_rfl hlen⟩

/-- C3 counterexample: casting the scenario ray in the square room bounces
at least once, yet `intensity` after the cast is still `1`, not reduced by
`intensityDropPerBounce = 1/5`: `cast` never touches `intensity`. -/
theorem claim3_counterexample :
    1 ≤ ((rayC1 1000000).cast room).nbBounce ∧
    ((rayC1 1000000).cast room).intensity = 1 ∧
    (1 : ℝ) ≠ 1 - (rayC1 1000000).intensityDropOff := by
  refine ⟨?_, ?_, ?_⟩
  · obtain ⟨R, hc, hp, hnb⟩ := castC1_shape 1000000 (by norm_num)
    rw [hc]
    have hmono := castLoop_nb_mono room 4 R (some 1)
    exact le_trans (le_of_eq hnb.symm) hmono
  · rw [Ray.cast]
    rw [(castLoop_frame room _ _ _).1]
    rfl
  · show (1 : ℝ) ≠ 1 - (1 / 5 : ℝ)
    norm_num

/-- C3 amended: `cast` does not modify `intensity` at all -- for a
constructed ray it stays at its initial `1`, which trivially never goes
below `1 - maxBounces*intensityDropPerBounce`.  The decrement by
`intensityDropPerBounce` instead happens in `draw`, once per rendered
bounce point, which brings intensity to `1 - bounceCount*drop`, still at
least `1 - maxBounces*drop`. -/
theorem claim3_amended (o d : Vector2) (r : Ray) (w : World)
    (h : Ray.make o d = some r) :
    (r.cast w).intensity = 1 ∧
    1 - (r.maxBounce : ℝ) * r.intensityDropOff ≤ (r.cast w).intensity ∧
    ((r.cast w).drawUpdate).intensity =
      1 - ((r.cast w).nbBounce : ℝ) * r.intensityDropOff ∧
    1 - (r.maxBounce : ℝ) * r.intensityDropOff ≤ ((r.cast w).drawUpdate).intensity := by
  have hr := make_eq_some o d r h
  subst hr
  have hfr := castLoop_frame w
    ((Ray.mkWithMaxDistance o d 1000000).maxBounce -
      (Ray.mkWithMaxDistance o d 1000000).nbBounce)
    (Ray.mkWithMaxDistance o d 1000000) none
  have hint : ((Ray.mkWithMaxDistance o d 1000000).cast w).intensity = 1 := by
    rw [Ray.cast, hfr.1]
    rfl
  have hdrop : ((Ray.mkWithMaxDistance o d 1000000).cast w).intensityDropOff
      = (1 / 5 : ℝ) := by
    rw [Ray.cast, hfr.2.1]
    rfl
  have hwf : ((Ray.mkWithMaxDistance o d 1000000).cast w).wf :=
    castLoop_wf w _ _ none (mkWithMaxDistance_wf o d 1000000)
  have hmaxB : ((Ray.mkWithMaxDistance o d 1000000).cast w).maxBounce = 5 := by
    rw [Ray.cast, hfr.2.2.1]
    rfl
  have hnb5 : ((Ray.mkWithMaxDistance o d 1000000).cast w).nbBounce ≤ 5 := by
    have h5 := hwf.2.2.2
    rw [hmaxB] at h5
    exact h5
  have hlen : ((Ray.mkWithMaxDistance o d 1000000).cast w).points.length =
      ((Ray.mkWithMaxDistance o d 1000000).cast w).nbBounce + 1 := hwf.2.1
  have hdu : (((Ray.mkWithMaxDistance o d 1000000).cast w).drawUpdate).intensity =
      1 - (((Ray.mkWithMaxDistance o d 1000000).cast w).nbBounce : ℝ) * (1 / 5 : ℝ) := by
    show drawIntensitySteps
        (((Ray.mkWithMaxDistance o d 1000000).cast w).points.length - 1)
        ((Ray.mkWithMaxDistance o d 1000000).cast w).intensity
        ((Ray.mkWithMaxDistance o d 1000000).cast w).intensityDropOff = _
    rw [drawIntensitySteps_eq, hint, hdrop, hlen, Nat.add_sub_cancel]
  have hnbR : (((Ray.mkWithMaxDistance o d 1000000).cast w).nbBounce : ℝ) ≤ 5 := by
    exact_mod_cast hnb5
  refine ⟨hint, ?_, ?_, ?_⟩
  · rw [hint]
    show (1 : ℝ) - ((5 : ℕ) : ℝ) * (1 / 5 : ℝ) ≤ 1
    push_cast
    norm_num
  · rw [hdu]
    rfl
  · rw [hdu]
    show (1 : ℝ) - ((5 : ℕ) : ℝ) * (1 / 5 : ℝ) ≤
      1 - (((Ray.mkWithMaxDistance o d 1000000).cast w).nbBounce : ℝ) * (1 / 5 : ℝ)
    push_cast
    linarith [hnbR]

/-- C3 witness: the amended claim at the concrete scenario ray and room. -/
theorem claim3_witness :
    ((rayC1 1000000).cast room).intensity = 1 ∧
    1 - ((rayC1 1000000).maxBounce : ℝ) * (rayC1 1000000).intensityDropOff ≤
      ((rayC1 1000000).cast room).intensity := by
  have h := claim3_amended ⟨150, 100⟩ ⟨1, 0⟩ (rayC1 1000000) room make_rayC1
  exact ⟨h.1, h.2.1⟩
